import Mathlib

/-!
Verification of the triangulation / coloring-game core
(`triangulation.py`, `coloring_game.py`, `utils.py`).

The geometric pipeline is embedded shallowly:
* integer pixel coordinates are `ℤ`;
* Python float arithmetic that stays exact on the inputs the claims touch
  (the ray-casting division, midpoints, slider positions) is modelled in `ℚ`;
* the arc-length computations of `place_points_on_contour`, which involve
  square roots, are modelled in `ℝ`;
* Python `int(...)` truncation toward zero and `//` floor division are made
  explicit (`ratTrunc`, `realTrunc`, `Int.fdiv`);
* external library calls (OpenCV contour extraction, SciPy `Delaunay`) are
  parameters of the embedding: the Delaunay step is an `Option`-valued list of
  index triples (`none` = the call raised), the per-image mesh build of the
  game is an abstract function.
-/

/-- A pixel point `(x, y)` with integer coordinates. -/
abbrev Pt : Type := ℤ × ℤ

/-- A triangle as a triple of points, exactly as stored in `self.triangles`. -/
abbrev Tri : Type := Pt × Pt × Pt

/-- Python `int(q)` on an exactly represented rational: truncation toward zero. -/
def ratTrunc (q : ℚ) : ℤ :=
  if q < 0 then ⌈q⌉ else ⌊q⌋

/-- Python `int(r)` on a real value: truncation toward zero. -/
noncomputable def realTrunc (r : ℝ) : ℤ :=
  if r < 0 then ⌈r⌉ else ⌊r⌋

theorem ratTrunc_intCast (n : ℤ) : ratTrunc (n : ℚ) = n := by
  unfold ratTrunc
  split <;> simp

theorem realTrunc_intCast (n : ℤ) : realTrunc (n : ℝ) = n := by
  unfold realTrunc
  split <;> simp

/-! ## `ImageTriangulation.rect_contains` (`triangulation.py:30`) -/

/-- `rect_contains(rect, point)`: `rect = (x_min, y_min, x_max, y_max)`. -/
def rect_contains (rect : ℤ × ℤ × ℤ × ℤ) (point : Pt) : Bool :=
  if point.1 < rect.1 || point.2 < rect.2.1 then false
  else if point.1 > rect.2.2.1 || point.2 > rect.2.2.2 then false
  else true

theorem rect_contains_iff (rect : ℤ × ℤ × ℤ × ℤ) (p : Pt) :
    rect_contains rect p = true ↔
      rect.1 ≤ p.1 ∧ rect.2.1 ≤ p.2 ∧ p.1 ≤ rect.2.2.1 ∧ p.2 ≤ rect.2.2.2 := by
  unfold rect_contains
  split <;> rename_i h₁
  · simp only [Bool.or_eq_true, decide_eq_true_eq] at h₁
    constructor
    · intro h; cases h
    · intro ⟨ha, hb, _, _⟩; omega
  · split <;> rename_i h₂ <;>
      simp only [Bool.or_eq_true, decide_eq_true_eq, not_or] at h₁ h₂
    · constructor
      · intro h; cases h
      · intro ⟨_, _, hc, hd⟩; omega
    · constructor
      · intro _; omega
      · intro _; rfl

/-! ## `ImageTriangulation.point_in_polygon` (`triangulation.py:79`)

Ray casting with the even–odd rule.  The test point may be rational (the
claims evaluate it at exact triangle centroids); polygon vertices are the
integer contour points cast into `ℚ`.  The Python code assigns `xinters`
only under `p1y != p2y`, but that guard can only fail when the two enclosing
`y`-range guards already failed, so the division below is exercised exactly
when the Python one is. -/

/-- One step of the edge loop of `point_in_polygon`: given the current
`inside` flag and the edge `(p1, p2)`, produce the updated flag. -/
def pipStep (p : ℚ × ℚ) (inside : Bool) (edge : (ℚ × ℚ) × (ℚ × ℚ)) : Bool :=
  let p1 := edge.1
  let p2 := edge.2
  if p.2 > min p1.2 p2.2 then
    if p.2 ≤ max p1.2 p2.2 then
      if p.1 ≤ max p1.1 p2.1 then
        let xinters := (p.2 - p1.2) * (p2.1 - p1.1) / (p2.2 - p1.2) + p1.1
        if p1.1 = p2.1 ∨ p.1 ≤ xinters then !inside else inside
      else inside
    else inside
  else inside

/-- The list of directed edges walked by `point_in_polygon`:
`(poly[0],poly[1]), …, (poly[n-2],poly[n-1]), (poly[n-1],poly[0])`. -/
def polyEdges (poly : List (ℚ × ℚ)) : List ((ℚ × ℚ) × (ℚ × ℚ)) :=
  match poly with
  | [] => []
  | p0 :: rest => poly.zip (rest ++ [p0])

/-- `point_in_polygon(point, polygon_points)`. -/
def point_in_polygon (p : ℚ × ℚ) (poly : List (ℚ × ℚ)) : Bool :=
  (polyEdges poly).foldl (pipStep p) false

/-- Cast an integer point list (contour points) into `ℚ` for the ray cast. -/
def ptsQ (l : List Pt) : List (ℚ × ℚ) :=
  l.map (fun q => ((q.1 : ℚ), (q.2 : ℚ)))

/-- Cast an integer point into `ℚ`. -/
def ptQ (q : Pt) : ℚ × ℚ := ((q.1 : ℚ), (q.2 : ℚ))

/-! ## `ColoringGame.point_in_triangle` (`coloring_game.py:516`) and the
hit-test scan of `ColoringGame.handle_click` (`coloring_game.py:569`) -/

/-- `sign(p1, p2, p3)` of `point_in_triangle`. -/
def triSign (p1 p2 p3 : Pt) : ℤ :=
  (p1.1 - p3.1) * (p2.2 - p3.2) - (p2.1 - p3.1) * (p1.2 - p3.2)

/-- `point_in_triangle(point, triangle)`. -/
def point_in_triangle (point : Pt) (triangle : Tri) : Bool :=
  let d1 := triSign point triangle.1 triangle.2.1
  let d2 := triSign point triangle.2.1 triangle.2.2
  let d3 := triSign point triangle.2.2 triangle.1
  let has_neg := d1 < 0 || d2 < 0 || d3 < 0
  let has_pos := d1 > 0 || d2 > 0 || d3 > 0
  !(has_neg && has_pos)

/-- The scan of `handle_click`: walk `self.triangles` with its enumeration
index and stop at the first triangle containing the click point. -/
def hitTestAux (p : Pt) : List Tri → ℕ → Option ℕ
  | [], _ => none
  | t :: ts, i => if point_in_triangle p t then some i else hitTestAux p ts (i + 1)

/-- Index of the first triangle of the list containing the point, if any. -/
def hitTest (ts : List Tri) (p : Pt) : Option ℕ :=
  hitTestAux p ts 0

/-- The default used only to phrase list indexing in theorem statements. -/
def defaultTri : Tri := ((0, 0), (0, 0), (0, 0))

theorem hitTestAux_eq_some (p : Pt) :
    ∀ (ts : List Tri) (k i : ℕ),
      hitTestAux p ts k = some (k + i) ↔
        i < ts.length ∧ point_in_triangle p (ts.getD i defaultTri) = true ∧
          ∀ j, j < i → point_in_triangle p (ts.getD j defaultTri) = false := by
  intro ts
  induction ts with
  | nil => intro k i; simp [hitTestAux]
  | cons t ts ih =>
    intro k i
    unfold hitTestAux
    split <;> rename_i ht
    · constructor
      · intro h
        have hi : i = 0 := by
          have := Option.some_injective _ h
          omega
        subst hi
        refine ⟨by simp, by simpa using ht, ?_⟩
        intro j hj; omega
      · intro ⟨h₁, h₂, h₃⟩
        rcases i with _ | i
        · simp
        · have := h₃ 0 (by omega)
          simp only [List.getD_cons_zero] at this
          rw [ht] at this; cases this
    · rcases i with _ | i
      · constructor
        · intro h
          have : ∀ (ms : List Tri) (a b : ℕ), hitTestAux p ms a = some b → a ≤ b := by
            intro ms
            induction ms with
            | nil => intro a b h; simp [hitTestAux] at h
            | cons m ms ihm =>
              intro a b h
              unfold hitTestAux at h
              split at h
              · have := Option.some_injective _ h; omega
              · have := ihm (a + 1) b h; omega
          have := this ts (k + 1) (k + 0) h
          omega
        · intro ⟨_, h₂, _⟩
          simp only [List.getD_cons_zero] at h₂
          exact absurd h₂ ht
      · have : k + (i + 1) = (k + 1) + i := by omega
        rw [this, ih (k + 1) i]
        constructor
        · intro ⟨h₁, h₂, h₃⟩
          refine ⟨by simpa using Nat.succ_lt_succ h₁, by simpa using h₂, ?_⟩
          intro j hj
          rcases j with _ | j
          · simpa using ht
          · simpa using h₃ j (by omega)
        · intro ⟨h₁, h₂, h₃⟩
          refine ⟨by simpa using h₁, by simpa using h₂, ?_⟩
          intro j hj
          simpa using h₃ (j + 1) (by omega)

theorem hitTest_eq_some (ts : List Tri) (p : Pt) (i : ℕ) :
    hitTest ts p = some i ↔
      i < ts.length ∧ point_in_triangle p (ts.getD i defaultTri) = true ∧
        ∀ j, j < i → point_in_triangle p (ts.getD j defaultTri) = false := by
  have := hitTestAux_eq_some p ts 0 i
  simpa [hitTest] using this

theorem hitTest_nil (p : Pt) : hitTest [] p = none := rfl

/-! ## `ImageTriangulation.generate_interior_points` (`triangulation.py:201`)

Image shapes follow the numpy convention `(height, width)`, so the raster
bound check `0 <= x < img_shape[1] and 0 <= y < img_shape[0]` uses the
second component for `x`.  Integer `//` is Python floor division
(`Int.fdiv`), `int((min+max)/2)` is exact-float truncation (`ratTrunc`). -/

/-- Python `range(a, b, s)` for a positive step `s`, as a list of `ℤ`. -/
def pyRange (a b s : ℤ) : List ℤ :=
  (List.range ((b - a + s - 1).fdiv s).toNat).map (fun i => a + s * i)

/-- `generate_interior_points(contour_points, img_shape)` with the instance
field `self.interior_density` passed explicitly. -/
def generate_interior_points (contour_points : List Pt) (img_shape : ℤ × ℤ)
    (interior_density : ℤ) : List Pt :=
  if contour_points.length < 3 then []
  else
    let xs := contour_points.map Prod.fst
    let ys := contour_points.map Prod.snd
    let min_x := xs.foldl min (xs.headD 0)
    let min_y := ys.foldl min (ys.headD 0)
    let max_x := xs.foldl max (xs.headD 0)
    let max_y := ys.foldl max (ys.headD 0)
    let width := max_x - min_x
    let height := max_y - min_y
    let step_x := max (width.fdiv interior_density) 5
    let step_y := max (height.fdiv interior_density) 5
    let lattice :=
      (pyRange (min_y + step_y) max_y step_y).flatMap (fun y =>
        (pyRange (min_x + step_x) max_x step_x).filterMap (fun x =>
          if 0 ≤ x ∧ x < img_shape.2 ∧ 0 ≤ y ∧ y < img_shape.1 ∧
              point_in_polygon (ptQ (x, y)) (ptsQ contour_points) = true then
            some (x, y)
          else none))
    let center_x := ratTrunc (((min_x : ℚ) + (max_x : ℚ)) / 2)
    let center_y := ratTrunc (((min_y : ℚ) + (max_y : ℚ)) / 2)
    if point_in_polygon (ptQ (center_x, center_y)) (ptsQ contour_points) = true then
      lattice ++ [(center_x, center_y)]
    else lattice

/-! ## `ImageTriangulation.create_triangulation` (`triangulation.py:247`)

The SciPy `Delaunay` call is external: its outcome is a parameter
`dres : Option (List (ℕ × ℕ × ℕ))`, `none` meaning the constructor raised
(degenerate input), `some s` the list `tri.simplices` of index triples into
`all_points`.  The `try`/`except` block is modelled with `Except`: any
exception inside the body (the Delaunay failure, or an out-of-range simplex
index) is caught and turned into the empty triangle list; the two early
`len < 3` returns sit outside the `try` and cannot raise. -/

/-- Floor-division centroid `((x1+x2+x3)//3, (y1+y2+y3)//3)` of the filter. -/
def triCenter (t : Tri) : Pt :=
  ((t.1.1 + t.2.1.1 + t.2.2.1).fdiv 3, (t.1.2 + t.2.1.2 + t.2.2.2).fdiv 3)

/-- The retention test applied to each simplex triangle: all vertices inside
the image rectangle and the centroid inside the contour polygon. -/
def keepTriangle (img_shape : ℤ × ℤ) (contour_points : List Pt) (t : Tri) : Bool :=
  let rect := (0, 0, img_shape.2, img_shape.1)
  rect_contains rect t.1 && rect_contains rect t.2.1 && rect_contains rect t.2.2 &&
    point_in_polygon (ptQ (triCenter t)) (ptsQ contour_points)

/-- The `for simplex in tri.simplices` loop. An out-of-range index raises
(`Except.error`), which the surrounding `except` turns into `[]`. -/
def simplexLoop (pts : List Pt) (img_shape : ℤ × ℤ) (contour_points : List Pt) :
    List (ℕ × ℕ × ℕ) → List Tri → Except String (List Tri)
  | [], acc => .ok acc
  | s :: rest, acc =>
    match pts[s.1]?, pts[s.2.1]?, pts[s.2.2]? with
    | some p1, some p2, some p3 =>
      let t : Tri := (p1, p2, p3)
      simplexLoop pts img_shape contour_points rest
        (if keepTriangle img_shape contour_points t then acc ++ [t] else acc)
    | _, _, _ => .error "IndexError"

/-- The body of the `try` block: the Delaunay call (which may raise) followed
by the simplex loop. -/
def triBody (all_points : List Pt) (img_shape : ℤ × ℤ) (contour_points : List Pt)
    (dres : Option (List (ℕ × ℕ × ℕ))) : Except String (List Tri) :=
  match dres with
  | none => .error "QhullError"
  | some simplices => simplexLoop all_points img_shape contour_points simplices []

/-- `create_triangulation(contour_points, interior_points, img_shape)`.
The value is `Except`-typed to record that the function itself never lets an
exception escape (`.error` is unreachable: the `except` clause returns `[]`). -/
def create_triangulation (contour_points interior_points : List Pt)
    (img_shape : ℤ × ℤ) (dres : Option (List (ℕ × ℕ × ℕ))) :
    Except String (List Tri) :=
  if contour_points.length < 3 then .ok []
  else if (contour_points ++ interior_points).length < 3 then .ok []
  else
    match triBody (contour_points ++ interior_points) img_shape contour_points dres with
    | .ok triangles => .ok triangles
    | .error _ => .ok []

/-- Every triangle in the result of the simplex loop was already in the
accumulator or passed the retention test. -/
theorem simplexLoop_mem (pts : List Pt) (shape : ℤ × ℤ) (cp : List Pt) :
    ∀ (ss : List (ℕ × ℕ × ℕ)) (acc out : List Tri),
      simplexLoop pts shape cp ss acc = .ok out →
      ∀ t ∈ out, t ∈ acc ∨ keepTriangle shape cp t = true := by
  intro ss
  induction ss with
  | nil =>
    intro acc out h t ht
    simp only [simplexLoop] at h
    cases h
    exact Or.inl ht
  | cons s rest ih =>
    intro acc out h t ht
    unfold simplexLoop at h
    rcases h1 : pts[s.1]? with _ | p1 <;> rw [h1] at h
    · cases h
    rcases h2 : pts[s.2.1]? with _ | p2 <;> rw [h2] at h
    · cases h
    rcases h3 : pts[s.2.2]? with _ | p3 <;> rw [h3] at h
    · cases h
    simp only at h
    rcases ih _ _ h t ht with hacc | hkeep
    · split at hacc
      · rcases List.mem_append.1 hacc with h' | h'
        · exact Or.inl h'
        · rename_i hk
          have : t = (p1, p2, p3) := by simpa using h'
          exact Or.inr (this ▸ hk)
      · exact Or.inl hacc
    · exact Or.inr hkeep

/-- Membership in the triangle list produced by `create_triangulation`
implies the retention test. -/
theorem create_triangulation_mem (cp ip : List Pt) (shape : ℤ × ℤ)
    (dres : Option (List (ℕ × ℕ × ℕ))) (out : List Tri)
    (h : create_triangulation cp ip shape dres = .ok out) :
    ∀ t ∈ out, keepTriangle shape cp t = true := by
  intro t ht
  unfold create_triangulation at h
  split at h
  · cases h; cases ht
  · split at h
    · cases h; cases ht
    · split at h <;> rename_i heq
      · cases h
        rcases dres with _ | ss
        · cases heq
        · simp only [triBody] at heq
          rcases simplexLoop_mem _ _ _ _ _ _ heq t ht with h' | h'
          · cases h'
          · exact h'
      · cases h; cases ht

/-- `create_triangulation` never propagates an exception: its result is
always `.ok`. -/
theorem create_triangulation_total (cp ip : List Pt) (shape : ℤ × ℤ)
    (dres : Option (List (ℕ × ℕ × ℕ))) :
    ∃ ts, create_triangulation cp ip shape dres = .ok ts := by
  unfold create_triangulation
  split
  · exact ⟨[], rfl⟩
  · split
    · exact ⟨[], rfl⟩
    · split <;> rename_i heq
      · exact ⟨_, rfl⟩
      · exact ⟨[], rfl⟩

/-! ## Parameter handling (`coloring_game.py:657-687`, slider at 487-511)

The `+`/`-` key handlers request `n_contour_points ± 5` and
`interior_density ± 1` and clamp the result against the documented bounds
`[10, 100]` and `[2, 20]` with `min`/`max`; the slider drag computes
`int(min + ratio * (max - min))` for a ratio already confined to `[0, 1]`. -/

/-- Triangulation parameters `(n_contour_points, interior_density)`. -/
abbrev Params : Type := ℤ × ℤ

/-- The documented parameter bounds. -/
def paramsInBounds (p : Params) : Prop :=
  10 ≤ p.1 ∧ p.1 ≤ 100 ∧ 2 ≤ p.2 ∧ p.2 ≤ 20

/-- The `+` key handler's parameter update. -/
def increaseParams (p : Params) : Params :=
  (min (p.1 + 5) 100, min (p.2 + 1) 20)

/-- The `-` key handler's parameter update. -/
def decreaseParams (p : Params) : Params :=
  (max (p.1 - 5) 10, max (p.2 - 1) 2)

/-- Clamp a value to the closed interval `[lo, hi]`. -/
def clampTo (lo hi v : ℤ) : ℤ := max lo (min v hi)

/-- The contour-points value produced by a slider drag at a given ratio. -/
def sliderContourValue (ratio : ℚ) : ℤ :=
  ratTrunc (10 + ratio * (100 - 10))

/-- The interior-density value produced by a slider drag at a given ratio. -/
def sliderInteriorValue (ratio : ℚ) : ℤ :=
  ratTrunc (2 + ratio * (20 - 2))

/-! ## `ColoringGame` interaction state (`coloring_game.py`)

The state machine keeps exactly the fields the claims mention.  The
image-dependent part of a rebuild (OpenCV contour extraction feeding the
pipeline) is abstracted as a function `build : Img → Params → List Tri`,
since `get_contours_from_image` delegates to external cv2 calls; everything
`process_image` does to the interaction state around that call is explicit. -/

/-- A BGR color. -/
abbrev Color : Type := ℤ × ℤ × ℤ

/-- Overwrite-or-insert into the `triangle_colors` dict (keyed lookup list). -/
def dictInsert (d : List (ℕ × Color)) (i : ℕ) (c : Color) : List (ℕ × Color) :=
  if d.any (fun e => e.1 = i) then d.map (fun e => if e.1 = i then (i, c) else e)
  else d ++ [(i, c)]

/-- The interaction state of `ColoringGame`. -/
structure GameState (Img : Type) where
  originalImage : Option Img
  triangles : List Tri
  triangleColors : List (ℕ × Color)
  params : Params
  currentColor : Color

/-- The initial state set in `ColoringGame.__init__`. -/
def initState (Img : Type) : GameState Img :=
  { originalImage := none
    triangles := []
    triangleColors := []
    params := (30, 8)
    currentColor := (255, 0, 0) }

/-- `ColoringGame.process_image` on the interaction state: with no image it
returns `False` leaving the state alone; otherwise it rebuilds the triangle
list from the image and the current parameters and resets `triangle_colors`. -/
def processImage {Img : Type} (build : Img → Params → List Tri)
    (s : GameState Img) : GameState Img :=
  match s.originalImage with
  | none => s
  | some img =>
    { s with triangles := build img s.params, triangleColors := [] }

/-- The input events that mutate the interaction state. -/
inductive GameAction (Img : Type) where
  | loadImage (img : Img)
  | click (p : Pt)
  | selectColor (c : Color)
  | keyReset
  | keyPlus
  | keyMinus
  | sliderRelease
  | sliderDragContour (ratio : ℚ)
  | sliderDragInterior (ratio : ℚ)

/-- One event-handler step of `ColoringGame`. -/
def gameStep {Img : Type} (build : Img → Params → List Tri) :
    GameAction Img → GameState Img → GameState Img
  | .loadImage img, s => processImage build { s with originalImage := some img }
  | .click p, s =>
    match hitTest s.triangles p with
    | some i => { s with triangleColors := dictInsert s.triangleColors i s.currentColor }
    | none => s
  | .selectColor c, s => { s with currentColor := c }
  | .keyReset, s => { s with triangleColors := [] }
  | .keyPlus, s => processImage build { s with params := increaseParams s.params }
  | .keyMinus, s => processImage build { s with params := decreaseParams s.params }
  | .sliderRelease, s => processImage build s
  | .sliderDragContour r, s => { s with params := (sliderContourValue r, s.params.2) }
  | .sliderDragInterior r, s => { s with params := (s.params.1, sliderInteriorValue r) }

/-- States reachable from the initial state by event-handler steps. -/
inductive Reachable {Img : Type} (build : Img → Params → List Tri) :
    GameState Img → Prop where
  | init : Reachable build (initState Img)
  | step {s : GameState Img} (a : GameAction Img) :
      Reachable build s → Reachable build (gameStep build a s)

/-- In every reachable state, if no image has been loaded then no triangle
exists and no triangle has been painted. -/
theorem reachable_no_image_inv {Img : Type} (build : Img → Params → List Tri)
    (s : GameState Img) (h : Reachable build s) :
    s.originalImage = none → s.triangles = [] ∧ s.triangleColors = [] := by
  induction h with
  | init => intro _; exact ⟨rfl, rfl⟩
  | @step s a _ ih =>
    cases a with
    | loadImage img =>
      intro hnone
      simp only [gameStep, processImage] at hnone ⊢
      cases hnone
    | click p =>
      have himg : (gameStep build (.click p) s).originalImage = s.originalImage := by
        simp only [gameStep]
        rcases hitTest s.triangles p <;> rfl
      intro hnone
      rw [himg] at hnone
      obtain ⟨h1, h2⟩ := ih hnone
      have hht : hitTest s.triangles p = none := by rw [h1]; rfl
      simp only [gameStep, hht]
      exact ⟨h1, h2⟩
    | selectColor c => intro hnone; exact ih hnone
    | keyReset =>
      intro hnone
      exact ⟨(ih hnone).1, rfl⟩
    | keyPlus =>
      intro hnone
      simp only [gameStep, processImage] at hnone ⊢
      rcases him : s.originalImage with _ | img
      · exact ih him
      · rw [him] at hnone
        exact Option.noConfusion hnone
    | keyMinus =>
      intro hnone
      simp only [gameStep, processImage] at hnone ⊢
      rcases him : s.originalImage with _ | img
      · exact ih him
      · rw [him] at hnone
        exact Option.noConfusion hnone
    | sliderRelease =>
      intro hnone
      simp only [gameStep, processImage] at hnone ⊢
      rcases him : s.originalImage with _ | img
      · exact ih him
      · rw [him] at hnone
        exact Option.noConfusion hnone
    | sliderDragContour r => intro hnone; exact ih hnone
    | sliderDragInterior r => intro hnone; exact ih hnone

/-- C6: every rebuild of the mesh (`process_image`) leaves `triangle_colors`
empty afterwards, discarding all previously painted entries in full, for every
interaction state reachable by game actions (paint, reset, parameter changes,
loads) and any parameter values. -/
theorem C6_rebuild_clears_color_assignment {Img : Type} (build : Img → Params → List Tri)
    (s : GameState Img) (h : Reachable build s) :
    (processImage build s).triangleColors = [] := by
  rcases him : s.originalImage with _ | img
  · have := (reachable_no_image_inv build s h him).2
    simp only [processImage, him]
    exact this
  · simp only [processImage, him]

/-! ## `ImageTriangulation.place_points_on_contour` (`triangulation.py:151`)

The contour is reshaped to a float array; segment lengths are Euclidean
norms of consecutive differences (`np.diff`), so the model lives in `ℝ`.
`np.searchsorted(cumulative, v)` (left side, `cumulative` sorted) is the
number of leading entries `< v`.  Indexing a numpy array out of range raises
`IndexError`, and this function has no `try`, so the embedding is
`Option`-valued with `none` for the raised exception: `cumulative[-1]` on an
empty array (fewer than 2 contour points), or `distances[idx]` when the
clamped index still overruns (exactly 2 contour points, nonzero length). -/

/-- Cast an integer contour into the float plane. -/
def toR (l : List Pt) : List (ℝ × ℝ) :=
  l.map (fun q => ((q.1 : ℝ), (q.2 : ℝ)))

/-- `np.sqrt(np.sum(np.diff(contour, axis=0) ** 2, axis=1))`. -/
noncomputable def segLens (c : List (ℝ × ℝ)) : List ℝ :=
  (c.zip c.tail).map (fun e => Real.sqrt ((e.2.1 - e.1.1) ^ 2 + (e.2.2 - e.1.2) ^ 2))

/-- `np.cumsum` with a running accumulator. -/
noncomputable def cumsumFrom (acc : ℝ) : List ℝ → List ℝ
  | [] => []
  | d :: ds => (acc + d) :: cumsumFrom (acc + d) ds

/-- `np.cumsum(distances)`. -/
noncomputable def cumsum (ds : List ℝ) : List ℝ := cumsumFrom 0 ds

/-- `np.searchsorted(a, v)` (left) on a sorted array: count of entries `< v`. -/
noncomputable def searchsorted (a : List ℝ) (v : ℝ) : ℕ :=
  match a with
  | [] => 0
  | x :: rest => if v ≤ x then 0 else searchsorted rest v + 1

/-- Total arc length of the (open) polyline through the contour points. -/
noncomputable def perimeter (contour : List Pt) : ℝ :=
  (segLens (toR contour)).sum

/-- Sequential evaluation of the interpolation loop: the first raised
`IndexError` aborts the whole call. -/
def optionMapList {α β : Type} (f : α → Option β) : List α → Option (List β)
  | [] => some []
  | a :: as =>
    match f a with
    | none => none
    | some b =>
      match optionMapList f as with
      | none => none
      | some bs => some (b :: bs)

/-- The body of the `for i in range(1, n_points)` loop of
`place_points_on_contour` at loop counter `i`. -/
noncomputable def samplePoint (c : List (ℝ × ℝ)) (distances cumulative : List ℝ)
    (spacing : ℝ) (i : ℕ) : Option (ℝ × ℝ) :=
  let target_distance := (i : ℝ) * spacing
  let idx0 := searchsorted cumulative target_distance
  let idx1 := if distances.length ≤ idx0 then distances.length - 1 else idx0
  let idx := if idx1 = 0 then 1 else idx1
  match distances[idx]? with
  | none => none
  | some d =>
    let ratio := if d ≠ 0 then (target_distance - cumulative.getD (idx - 1) 0) / d else 0
    let p := c.getD (idx - 1) (0, 0)
    let q := c.getD idx (0, 0)
    some (p.1 + ratio * (q.1 - p.1), p.2 + ratio * (q.2 - p.2))

/-- `place_points_on_contour(contour, n_points)`. -/
noncomputable def place_points_on_contour (contour : List Pt) (n_points : ℕ) :
    Option (List Pt) :=
  let c := toR contour
  let distances := segLens c
  let cumulative := cumsum distances
  match cumulative.getLast? with
  | none => none
  | some total_length =>
    if total_length = 0 then some (contour.take n_points)
    else
      let spacing := total_length / (n_points : ℝ)
      match optionMapList (samplePoint c distances cumulative spacing)
          ((List.range (n_points - 1)).map (fun j => j + 1)) with
      | none => none
      | some pts =>
        some ((c.headD (0, 0) :: pts).map (fun p => (realTrunc p.1, realTrunc p.2)))

theorem cumsumFrom_length (a : ℝ) (ds : List ℝ) :
    (cumsumFrom a ds).length = ds.length := by
  induction ds generalizing a with
  | nil => rfl
  | cons d ds ih => simp [cumsumFrom, ih]

theorem cumsum_length (ds : List ℝ) : (cumsum ds).length = ds.length :=
  cumsumFrom_length 0 ds

theorem cumsumFrom_getLast (a : ℝ) (ds : List ℝ) (h : ds ≠ []) :
    (cumsumFrom a ds).getLast? = some (a + ds.sum) := by
  induction ds generalizing a with
  | nil => cases h rfl
  | cons d ds ih =>
    rcases ds with _ | ⟨e, es⟩
    · simp [cumsumFrom]
    · have h2 := ih (a + d) (by simp)
      show ((a + d) :: cumsumFrom (a + d) (e :: es)).getLast? = some (a + (d :: e :: es).sum)
      rw [List.getLast?_cons, h2]
      simp [add_assoc]

theorem cumsum_getLast (ds : List ℝ) (h : ds ≠ []) :
    (cumsum ds).getLast? = some ds.sum := by
  have := cumsumFrom_getLast 0 ds h
  simpa [cumsum] using this

theorem searchsorted_le_length (a : List ℝ) (v : ℝ) :
    searchsorted a v ≤ a.length := by
  induction a with
  | nil => simp [searchsorted]
  | cons x rest ih =>
    unfold searchsorted
    split
    · simp
    · simpa using Nat.succ_le_succ ih

theorem segLens_length (c : List (ℝ × ℝ)) :
    (segLens c).length = c.length - 1 := by
  unfold segLens
  rcases c with _ | ⟨p, rest⟩
  · rfl
  · simp

theorem samplePoint_isSome (c : List (ℝ × ℝ)) (ds cum : List ℝ) (sp : ℝ) (i : ℕ)
    (h2 : 2 ≤ ds.length) (hc : cum.length = ds.length) :
    ∃ p, samplePoint c ds cum sp i = some p := by
  simp only [samplePoint]
  have hso := searchsorted_le_length cum ((i : ℝ) * sp)
  set idx0 := searchsorted cum ((i : ℝ) * sp) with hidx0
  set idx1 := if ds.length ≤ idx0 then ds.length - 1 else idx0 with hidx1
  set idx := if idx1 = 0 then 1 else idx1 with hidx
  have hlt : idx < ds.length := by
    rw [hidx, hidx1]
    split
    · split <;> omega
    · split <;> omega
  rw [List.getElem?_eq_getElem hlt]
  exact ⟨_, rfl⟩

theorem optionMapList_isSome {α β : Type} (f : α → Option β) (l : List α)
    (h : ∀ a ∈ l, ∃ b, f a = some b) :
    ∃ out, optionMapList f l = some out ∧ out.length = l.length := by
  induction l with
  | nil => exact ⟨[], rfl, rfl⟩
  | cons a as ih =>
    obtain ⟨b, hb⟩ := h a (by simp)
    obtain ⟨out, hout, hlen⟩ := ih (fun x hx => h x (by simp [hx]))
    refine ⟨b :: out, ?_, by simp [hlen]⟩
    unfold optionMapList
    rw [hb, hout]

theorem segLens_coincide (contour : List Pt) (c0 : Pt)
    (h : ∀ p ∈ contour, p = c0) :
    ∀ x ∈ segLens (toR contour), x = 0 := by
  intro x hx
  unfold segLens at hx
  obtain ⟨e, he, hex⟩ := List.mem_map.1 hx
  obtain ⟨he1, he2⟩ := List.of_mem_zip he
  have h1 := h _ (List.mem_map.1 he1).choose_spec.1
  have h2 := h _ (List.mem_map.1 ((List.tail_subset _) he2)).choose_spec.1
  obtain ⟨a, ha, hae⟩ := List.mem_map.1 he1
  obtain ⟨b, hb, hbe⟩ := List.mem_map.1 ((List.tail_subset _) he2)
  have ha0 : a = c0 := h a ha
  have hb0 : b = c0 := h b hb
  rw [← hex, ← hae, ← hbe, ha0, hb0]
  simp

theorem perimeter_coincide (contour : List Pt) (c0 : Pt)
    (h : ∀ p ∈ contour, p = c0) : perimeter contour = 0 :=
  List.sum_eq_zero (segLens_coincide contour c0 h)

/-- A nonzero perimeter forces at least two contour points, hence a nonempty
cumulative array. -/
theorem perimeter_ne_zero_two_le (contour : List Pt) (h : perimeter contour ≠ 0) :
    2 ≤ contour.length := by
  rcases contour with _ | ⟨p, rest⟩
  · exact absurd rfl h
  · rcases rest with _ | ⟨q, rest⟩
    · exact absurd rfl h
    · simp

theorem perimeter_pair_eq_zero (p : Pt) : perimeter [p, p] = 0 := by
  apply perimeter_coincide _ p
  intro x hx
  simp only [List.mem_cons, List.mem_singleton, List.not_mem_nil, or_false] at hx
  rcases hx with h | h <;> exact h

/-- C3: for every closed contour of nonzero total perimeter and every target
count `K` in the valid range, `place_points_on_contour` raises nothing and
returns exactly `K` points, the first being the contour's first vertex, and
repeated calls return the same output. -/
theorem C3_sampler_count_head_deterministic (contour : List Pt) (K : ℕ)
    (hK : 3 ≤ K)
    (hclosed : contour.head? = contour.getLast?)
    (hL : perimeter contour ≠ 0) :
    ∃ out, place_points_on_contour contour K = some out ∧
      out.length = K ∧ out.head? = contour.head? ∧
      place_points_on_contour contour K = place_points_on_contour contour K := by
  have hlen2 : 2 ≤ contour.length := perimeter_ne_zero_two_le contour hL
  have hlen3 : 3 ≤ contour.length := by
    rcases Nat.lt_or_ge contour.length 3 with hlt | hge
    · have h2 : contour.length = 2 := by omega
      obtain ⟨p, q, hpq⟩ := List.length_eq_two.1 h2
      subst hpq
      have : p = q := by simpa using hclosed
      subst this
      exact absurd (perimeter_pair_eq_zero p) hL
    · exact hge
  have hds : (segLens (toR contour)).length = contour.length - 1 := by
    have : (toR contour).length = contour.length := by simp [toR]
    rw [segLens_length, this]
  have hds2 : 2 ≤ (segLens (toR contour)).length := by omega
  have hcuml : (cumsum (segLens (toR contour))).length = (segLens (toR contour)).length :=
    cumsum_length _
  have hdsne : segLens (toR contour) ≠ [] := by
    intro h
    rw [h] at hds2
    simp at hds2
  have hlast : (cumsum (segLens (toR contour))).getLast? = some (perimeter contour) :=
    cumsum_getLast _ hdsne
  obtain ⟨pts, hpts, hptslen⟩ :=
    optionMapList_isSome
      (samplePoint (toR contour) (segLens (toR contour)) (cumsum (segLens (toR contour)))
        (perimeter contour / (K : ℝ)))
      ((List.range (K - 1)).map (fun j => j + 1))
      (fun i _ => samplePoint_isSome _ _ _ _ i hds2 hcuml)
  have hne : contour ≠ [] := by
    intro h
    rw [h] at hlen2
    simp at hlen2
  obtain ⟨p0, rest, hc⟩ := List.exists_cons_of_ne_nil hne
  refine ⟨((toR contour).headD (0, 0) :: pts).map (fun p => (realTrunc p.1, realTrunc p.2)),
    ?_, ?_, ?_, rfl⟩
  · simp only [place_points_on_contour, hlast, if_neg hL, hpts]
  · simp only [List.length_map, List.length_cons]
    rw [hptslen]
    simp only [List.length_map, List.length_range]
    omega
  · subst hc
    simp [toR, realTrunc_intCast]

/-- When all contour vertices coincide (zero total length) and the contour
has at least the two points needed to avoid the `cumulative[-1]` index error,
the sampler returns the first `n_points` raw vertices. -/
theorem place_points_degenerate (contour : List Pt) (K : ℕ)
    (hlen : 2 ≤ contour.length)
    (hcoin : ∀ p ∈ contour, p = contour.headD (0, 0)) :
    place_points_on_contour contour K = some (contour.take K) := by
  have hds : (segLens (toR contour)).length = contour.length - 1 := by
    have : (toR contour).length = contour.length := by simp [toR]
    rw [segLens_length, this]
  have hdsne : segLens (toR contour) ≠ [] := by
    intro h
    rw [h] at hds
    simp at hds
    omega
  have hsum : (segLens (toR contour)).sum = 0 :=
    List.sum_eq_zero (segLens_coincide contour _ hcoin)
  have hlast : (cumsum (segLens (toR contour))).getLast? = some 0 := by
    rw [cumsum_getLast _ hdsne, hsum]
  simp only [place_points_on_contour, hlast, if_pos rfl]
  simp

theorem sqrt_sum_sq_eval (a b c : ℝ) (h : a ^ 2 + b ^ 2 = c ^ 2) (hc : 0 ≤ c) :
    Real.sqrt (a ^ 2 + b ^ 2) = c := by
  rw [h, Real.sqrt_sq hc]

theorem floor_half : (⌊(1 : ℝ) / 2⌋ : ℤ) = 0 :=
  Int.floor_eq_zero_iff.mpr ⟨by norm_num, by norm_num⟩

theorem realTrunc_half : realTrunc ((1 : ℝ) / 2) = 0 := by
  unfold realTrunc
  rw [if_neg (by norm_num), floor_half]

theorem realTrunc_zero : realTrunc (0 : ℝ) = 0 := by
  have := realTrunc_intCast 0
  simpa using this

theorem segLens_eval_C4 :
    segLens [((0 : ℝ), (0 : ℝ)), (1, 0), (3, 0)] = [1, 2] := by
  have e1 : Real.sqrt (((1 : ℝ) - 0) ^ 2 + ((0 : ℝ) - 0) ^ 2) = 1 := by
    rw [show ((1 : ℝ) - 0) ^ 2 + ((0 : ℝ) - 0) ^ 2 = 1 ^ 2 by norm_num]
    exact Real.sqrt_sq (by norm_num)
  have e2 : Real.sqrt (((3 : ℝ) - 1) ^ 2 + ((0 : ℝ) - 0) ^ 2) = 2 := by
    rw [show ((3 : ℝ) - 1) ^ 2 + ((0 : ℝ) - 0) ^ 2 = 2 ^ 2 by norm_num]
    exact Real.sqrt_sq (by norm_num)
  simp only [segLens, List.tail_cons, List.zip_cons_cons, List.zip_nil_right,
    List.map_cons, List.map_nil]
  rw [e1, e2]

theorem cumsum_eval_C4 : cumsum [(1 : ℝ), 2] = [1, 3] := by
  simp only [cumsum, cumsumFrom]
  norm_num

theorem samplePoint_eval_C4_1 :
    samplePoint [((0 : ℝ), (0 : ℝ)), (1, 0), (3, 0)] [1, 2] [1, 3]
      ((3 : ℝ) / ((3 : ℕ) : ℝ)) 1 = some (0, 0) := by
  have hss : searchsorted [(1 : ℝ), 3] ((1 : ℕ) * ((3 : ℝ) / ((3 : ℕ) : ℝ))) = 0 := by
    unfold searchsorted
    rw [if_pos (by push_cast; norm_num)]
  simp only [samplePoint, hss]
  norm_num [List.getD]

theorem samplePoint_eval_C4_2 :
    samplePoint [((0 : ℝ), (0 : ℝ)), (1, 0), (3, 0)] [1, 2] [1, 3]
      ((3 : ℝ) / ((3 : ℕ) : ℝ)) 2 = some (1 / 2, 0) := by
  have hss : searchsorted [(1 : ℝ), 3] ((2 : ℕ) * ((3 : ℝ) / ((3 : ℕ) : ℝ))) = 1 := by
    unfold searchsorted
    rw [if_neg (by push_cast; norm_num)]
    unfold searchsorted
    rw [if_pos (by push_cast; norm_num)]
  simp only [samplePoint, hss]
  norm_num [List.getD]

theorem toR_eval_C4 :
    toR [((0 : ℤ), (0 : ℤ)), (1, 0), (3, 0)] = [((0 : ℝ), (0 : ℝ)), (1, 0), (3, 0)] := by
  simp [toR]

/-- C4 evaluation: the three-point polyline `(0,0)-(1,0)-(3,0)` has total
length 3, so an even 3-sampling should be `[(0,0),(1,0),(2,0)]`; the code
interpolates with the residual ratio of segment `idx` applied to segment
`idx-1` and instead returns all three points at the origin. -/
theorem C4_sampler_off_by_one_segment :
    place_points_on_contour [((0 : ℤ), (0 : ℤ)), (1, 0), (3, 0)] 3 =
      some [(0, 0), (0, 0), (0, 0)] := by
  have hrange : (List.range (3 - 1)).map (fun j => j + 1) = [1, 2] := by decide
  simp only [place_points_on_contour, toR_eval_C4, segLens_eval_C4, cumsum_eval_C4,
    hrange, List.getLast?_cons_cons, List.getLast?_singleton]
  rw [if_neg (by norm_num : ¬(3 : ℝ) = 0)]
  simp only [optionMapList, samplePoint_eval_C4_1, samplePoint_eval_C4_2]
  simp only [List.headD_cons, List.map_cons, List.map_nil, realTrunc_zero, realTrunc_half]

/-! ## Claim theorems -/

/-- C1 (amended): for every triangle retained by `create_triangulation`, all
three vertices lie in the closed rectangle `[0, width] × [0, height]`
(`img_shape = (height, width)`), and the centroid computed with Python floor
division — `((x1+x2+x3)//3, (y1+y2+y3)//3)`, not the exact rational mean —
passes the ray-casting test against the contour that produced it. -/
theorem C1_retained_vertex_bounds_and_floor_centroid (cp ip : List Pt)
    (shape : ℤ × ℤ) (dres : Option (List (ℕ × ℕ × ℕ))) (out : List Tri) (t : Tri)
    (h : create_triangulation cp ip shape dres = .ok out) (ht : t ∈ out) :
    (0 ≤ t.1.1 ∧ 0 ≤ t.1.2 ∧ t.1.1 ≤ shape.2 ∧ t.1.2 ≤ shape.1) ∧
    (0 ≤ t.2.1.1 ∧ 0 ≤ t.2.1.2 ∧ t.2.1.1 ≤ shape.2 ∧ t.2.1.2 ≤ shape.1) ∧
    (0 ≤ t.2.2.1 ∧ 0 ≤ t.2.2.2 ∧ t.2.2.1 ≤ shape.2 ∧ t.2.2.2 ≤ shape.1) ∧
    point_in_polygon (ptQ (triCenter t)) (ptsQ cp) = true := by
  have hk := create_triangulation_mem cp ip shape dres out h t ht
  simp only [keepTriangle, Bool.and_eq_true] at hk
  obtain ⟨⟨⟨h1, h2⟩, h3⟩, h4⟩ := hk
  rw [rect_contains_iff] at h1 h2 h3
  exact ⟨h1, h2, h3, h4⟩

/-- C1 witness: a concrete run retaining one triangle, instantiating the
amended claim. -/
theorem C1_witness :
    create_triangulation [(0, 0), (10, 0), (10, 10), (0, 10)] [] (10, 10)
        (some [(0, 1, 2)]) = .ok [((0, 0), (10, 0), (10, 10))] ∧
    ((0 ≤ (0 : ℤ) ∧ 0 ≤ (0 : ℤ) ∧ (0 : ℤ) ≤ 10 ∧ (0 : ℤ) ≤ 10) ∧
     (0 ≤ (10 : ℤ) ∧ 0 ≤ (0 : ℤ) ∧ (10 : ℤ) ≤ 10 ∧ (0 : ℤ) ≤ 10) ∧
     (0 ≤ (10 : ℤ) ∧ 0 ≤ (10 : ℤ) ∧ (10 : ℤ) ≤ 10 ∧ (10 : ℤ) ≤ 10) ∧
     point_in_polygon (ptQ (triCenter ((0, 0), (10, 0), (10, 10))))
       (ptsQ [(0, 0), (10, 0), (10, 10), (0, 10)]) = true) := by
  have h : create_triangulation [(0, 0), (10, 0), (10, 10), (0, 10)] [] (10, 10)
      (some [(0, 1, 2)]) = .ok [((0, 0), (10, 0), (10, 10))] := by
    norm_num [create_triangulation, triBody, simplexLoop, keepTriangle, rect_contains,
      triCenter, point_in_polygon, polyEdges, ptsQ, ptQ, pipStep, List.foldl,
      min_def, max_def, Int.fdiv]
  exact ⟨h, C1_retained_vertex_bounds_and_floor_centroid _ _ _ _ _ _ h
    (List.mem_singleton.mpr rfl)⟩

/-- C1 counterexample: `create_triangulation` retains the triangle
`(1,1),(2,1),(1,2)` against the unit-square contour (its floor-division
centroid `(1,1)` passes the ray cast), yet the exact mean of its vertices,
`(4/3, 4/3)`, fails the ray-casting test against that contour — so the claim
as stated (centroid = mean of the three vertices) is false. -/
theorem C1_counterexample_exact_mean_centroid :
    create_triangulation [(0, 0), (1, 0), (1, 1), (0, 1)] [(2, 1), (1, 2)] (10, 10)
        (some [(2, 4, 5)]) = .ok [((1, 1), (2, 1), (1, 2))] ∧
    point_in_polygon ((((1 : ℚ) + 2 + 1) / 3), (((1 : ℚ) + 1 + 2) / 3))
        (ptsQ [(0, 0), (1, 0), (1, 1), (0, 1)]) = false := by
  constructor
  · norm_num [create_triangulation, triBody, simplexLoop, keepTriangle, rect_contains,
      triCenter, point_in_polygon, polyEdges, ptsQ, ptQ, pipStep, List.foldl,
      min_def, max_def, Int.fdiv]
  · norm_num [point_in_polygon, polyEdges, ptsQ, pipStep, List.foldl, min_def, max_def]

/-- C2: the hit test scans the triangle list in index order and selects the
first triangle containing the click point; `point_in_triangle` classifies a
point inside unless the three cross-product signs contain both a strictly
positive and a strictly negative value (zero counts as inside); and on the
triangle `(0,0),(10,0),(0,10)` the points `(2,2)`, `(9,9)`, `(5,5)` are
classified inside, outside, inside respectively. -/
theorem C2_hit_test_first_match_sign_rule :
    (∀ (ts : List Tri) (p : Pt) (i : ℕ),
      hitTest ts p = some i ↔
        i < ts.length ∧ point_in_triangle p (ts.getD i defaultTri) = true ∧
          ∀ j, j < i → point_in_triangle p (ts.getD j defaultTri) = false) ∧
    (∀ (p : Pt) (t : Tri),
      point_in_triangle p t = true ↔
        ¬((triSign p t.1 t.2.1 < 0 ∨ triSign p t.2.1 t.2.2 < 0 ∨
            triSign p t.2.2 t.1 < 0) ∧
          (0 < triSign p t.1 t.2.1 ∨ 0 < triSign p t.2.1 t.2.2 ∨
            0 < triSign p t.2.2 t.1))) ∧
    point_in_triangle (2, 2) ((0, 0), (10, 0), (0, 10)) = true ∧
    point_in_triangle (9, 9) ((0, 0), (10, 0), (0, 10)) = false ∧
    point_in_triangle (5, 5) ((0, 0), (10, 0), (0, 10)) = true := by
  refine ⟨hitTest_eq_some, ?_, by decide, by decide, by decide⟩
  intro p t
  simp only [point_in_triangle, Bool.not_eq_true', Bool.and_eq_false_iff,
    Bool.or_eq_false_iff, decide_eq_false_iff_not]
  tauto

/-- C2 witness: the characterization applied at a concrete list and point. -/
theorem C2_witness : hitTest [((0, 0), (10, 0), (0, 10))] (5, 5) = some 0 :=
  (C2_hit_test_first_match_sign_rule.1 [((0, 0), (10, 0), (0, 10))] (5, 5) 0).mpr
    ⟨by decide, by decide, fun j hj => absurd hj (by omega)⟩

theorem perimeter_eval_witness :
    perimeter [((0 : ℤ), (0 : ℤ)), (3, 0), (0, 0)] = 6 := by
  have e1 : Real.sqrt (((3 : ℝ) - 0) ^ 2 + ((0 : ℝ) - 0) ^ 2) = 3 := by
    rw [show ((3 : ℝ) - 0) ^ 2 + ((0 : ℝ) - 0) ^ 2 = 3 ^ 2 by norm_num]
    exact Real.sqrt_sq (by norm_num)
  have e2 : Real.sqrt (((0 : ℝ) - 3) ^ 2 + ((0 : ℝ) - 0) ^ 2) = 3 := by
    rw [show ((0 : ℝ) - 3) ^ 2 + ((0 : ℝ) - 0) ^ 2 = 3 ^ 2 by norm_num]
    exact Real.sqrt_sq (by norm_num)
  have htoR : toR [((0 : ℤ), (0 : ℤ)), (3, 0), (0, 0)] =
      [((0 : ℝ), (0 : ℝ)), (3, 0), (0, 0)] := by
    simp [toR]
  unfold perimeter
  rw [htoR]
  simp only [segLens, List.tail_cons, List.zip_cons_cons, List.zip_nil_right,
    List.map_cons, List.map_nil]
  rw [e1, e2]
  norm_num

/-- C3 witness: the claim instantiated on the closed triangleish contour
`(0,0)-(3,0)-(0,0)` of perimeter 6 with `K = 3`. -/
theorem C3_witness :
    ∃ out, place_points_on_contour [((0 : ℤ), (0 : ℤ)), (3, 0), (0, 0)] 3 = some out ∧
      out.length = 3 ∧
      out.head? = ([((0 : ℤ), (0 : ℤ)), (3, 0), (0, 0)] : List Pt).head? ∧
      place_points_on_contour [((0 : ℤ), (0 : ℤ)), (3, 0), (0, 0)] 3 =
        place_points_on_contour [((0 : ℤ), (0 : ℤ)), (3, 0), (0, 0)] 3 :=
  C3_sampler_count_head_deterministic [((0 : ℤ), (0 : ℤ)), (3, 0), (0, 0)] 3
    (by norm_num) (by rfl) (by rw [perimeter_eval_witness]; norm_num)

/-- C5: `create_triangulation` lets no exception escape (the result is always
`.ok`), and returns the empty triangle list whenever the boundary set has
fewer than 3 points, the combined point set has fewer than 3 points, or the
Delaunay step fails. -/
theorem C5_create_triangulation_no_exception (cp ip : List Pt) (shape : ℤ × ℤ)
    (dres : Option (List (ℕ × ℕ × ℕ))) :
    (∃ ts, create_triangulation cp ip shape dres = .ok ts) ∧
    (cp.length < 3 ∨ (cp ++ ip).length < 3 ∨ dres = none →
      create_triangulation cp ip shape dres = .ok []) := by
  refine ⟨create_triangulation_total cp ip shape dres, ?_⟩
  intro h
  unfold create_triangulation
  split <;> rename_i h1
  · rfl
  · split <;> rename_i h2
    · rfl
    · rcases h with h | h | h
      · exact absurd h h1
      · exact absurd h h2
      · subst h
        rfl

/-- C5 witness: a degenerate-input run (Delaunay raised) yields `.ok []`. -/
theorem C5_witness :
    create_triangulation [(0, 0), (10, 0), (0, 10)] [] (20, 20) none = .ok [] :=
  (C5_create_triangulation_no_exception [(0, 0), (10, 0), (0, 10)] [] (20, 20) none).2
    (Or.inr (Or.inr rfl))

/-- The concrete build function used to instantiate the game-state claims. -/
def witnessBuild : Unit → Params → List Tri :=
  fun _ _ => [((0, 0), (10, 0), (0, 10))]

/-- C6 witness: load an image, paint the triangle under a click at `(2,2)`
(the color table becomes nonempty), then rebuild with unchanged parameters:
the color table is empty again. -/
theorem C6_witness :
    (gameStep witnessBuild (.click (2, 2))
        (gameStep witnessBuild (.loadImage ()) (initState Unit))).triangleColors ≠ [] ∧
    (processImage witnessBuild
        (gameStep witnessBuild (.click (2, 2))
          (gameStep witnessBuild (.loadImage ()) (initState Unit)))).triangleColors = [] :=
  ⟨by decide,
    C6_rebuild_clears_color_assignment witnessBuild _
      (Reachable.step (.click (2, 2)) (Reachable.step (.loadImage ()) Reachable.init))⟩

theorem gip_square_eval :
    generate_interior_points [(0, 0), (100, 0), (100, 100), (0, 100)] (200, 200) 2 =
      [(50, 50), (50, 50)] := by
  norm_num [generate_interior_points, pyRange, point_in_polygon, polyEdges, ptsQ, ptQ,
    pipStep, List.foldl, min_def, max_def, ratTrunc, Int.fdiv, List.range_succ,
    List.filterMap_cons, List.flatMap_cons, List.flatMap_nil]

theorem gip_triangle_eval :
    generate_interior_points [(0, 0), (10, 0), (0, 10)] (20, 20) 2 = [(5, 5), (5, 5)] := by
  norm_num [generate_interior_points, pyRange, point_in_polygon, polyEdges, ptsQ, ptQ,
    pipStep, List.foldl, min_def, max_def, ratTrunc, Int.fdiv, List.range_succ,
    List.filterMap_cons, List.flatMap_cons, List.flatMap_nil]

theorem gip_offraster_eval :
    generate_interior_points [(0, 0), (50, 0), (50, 50), (0, 50)] (10, 10) 2 =
      [(25, 25)] := by
  norm_num [generate_interior_points, pyRange, point_in_polygon, polyEdges, ptsQ, ptQ,
    pipStep, List.foldl, min_def, max_def, ratTrunc, Int.fdiv, List.range_succ,
    List.filterMap_cons, List.flatMap_cons, List.flatMap_nil]

theorem generate_interior_points_pass (cp : List Pt) (shape : ℤ × ℤ) (D : ℤ) :
    ∀ p ∈ generate_interior_points cp shape D,
      point_in_polygon (ptQ p) (ptsQ cp) = true := by
  intro p hp
  simp only [generate_interior_points] at hp
  split at hp
  · cases hp
  · split at hp <;> rename_i hcenter
    · rcases List.mem_append.1 hp with h | h
      · obtain ⟨y, hy, hmem⟩ := List.mem_flatMap.1 h
        obtain ⟨x, hx, hxe⟩ := List.mem_filterMap.1 hmem
        split at hxe <;> rename_i hcond
        · cases hxe
          exact hcond.2.2.2.2
        · cases hxe
      · have hpc := List.mem_singleton.1 h
        rw [hpc]
        exact hcenter
    · obtain ⟨y, hy, hmem⟩ := List.mem_flatMap.1 hp
      obtain ⟨x, hx, hxe⟩ := List.mem_filterMap.1 hmem
      split at hxe <;> rename_i hcond
      · cases hxe
        exact hcond.2.2.2.2
      · cases hxe

/-- C7 (amended): every point returned by `generate_interior_points` passes
the ray-casting membership test against the input polygon (such a point can
still lie exactly on a polygon edge, which the ray cast may classify inside);
on the square with corners `(0,0),(100,0),(100,100),(0,100)` at density 2,
every returned point is strictly inside the square. -/
theorem C7_interior_points_ray_cast_and_square (cp : List Pt) (shape : ℤ × ℤ) (D : ℤ) :
    (∀ p ∈ generate_interior_points cp shape D,
      point_in_polygon (ptQ p) (ptsQ cp) = true) ∧
    (∀ p ∈ generate_interior_points [(0, 0), (100, 0), (100, 100), (0, 100)] (200, 200) 2,
      0 < p.1 ∧ p.1 < 100 ∧ 0 < p.2 ∧ p.2 < 100) := by
  refine ⟨generate_interior_points_pass cp shape D, ?_⟩
  rw [gip_square_eval]
  intro p hp
  rcases List.mem_cons.1 hp with h | h
  · rw [h]; decide
  · rw [List.mem_singleton.1 h]; decide

/-- C7 witness: the amended claim instantiated at the square boundary and the
point it returns. -/
theorem C7_witness :
    point_in_polygon (ptQ (50, 50)) (ptsQ [(0, 0), (100, 0), (100, 100), (0, 100)]) =
      true ∧
    (0 < (50 : ℤ) ∧ (50 : ℤ) < 100 ∧ 0 < (50 : ℤ) ∧ (50 : ℤ) < 100) := by
  have h := C7_interior_points_ray_cast_and_square
    [(0, 0), (100, 0), (100, 100), (0, 100)] (200, 200) 2
  have hmem : ((50 : ℤ), (50 : ℤ)) ∈
      generate_interior_points [(0, 0), (100, 0), (100, 100), (0, 100)] (200, 200) 2 := by
    rw [gip_square_eval]
    simp
  exact ⟨h.1 _ hmem, h.2 _ hmem⟩

/-- Exact membership of a point in the closed segment from `a` to `b`. -/
def onSegment (a b p : Pt) : Prop :=
  ∃ t : ℚ, 0 ≤ t ∧ t ≤ 1 ∧
    (p.1 : ℚ) = (a.1 : ℚ) + t * ((b.1 : ℚ) - (a.1 : ℚ)) ∧
    (p.2 : ℚ) = (a.2 : ℚ) + t * ((b.2 : ℚ) - (a.2 : ℚ))

/-- C7 counterexample: for the triangle contour `(0,0),(10,0),(0,10)` at
density 2 the generator returns `(5,5)`, which lies exactly on the polygon
edge from `(10,0)` to `(0,10)` (so not strictly inside: `5 + 5 < 10` fails),
refuting "never exactly on a polygon edge". -/
theorem C7_counterexample_point_on_edge :
    ((5 : ℤ), (5 : ℤ)) ∈ generate_interior_points [(0, 0), (10, 0), (0, 10)] (20, 20) 2 ∧
    onSegment (10, 0) (0, 10) (5, 5) ∧ ¬((5 : ℤ) + 5 < 10) := by
  refine ⟨?_, ⟨1 / 2, by norm_num, by norm_num, by norm_num, by norm_num⟩, by decide⟩
  rw [gip_triangle_eval]
  simp

/-- C10: the raster-bounds check is applied only to lattice candidates; the
bounding-box centroid is appended after the polygon test alone, so for the
square `(0,0),(50,0),(50,50),(0,50)` on a `10×10` raster the returned set is
exactly the centroid `(25,25)`, which lies outside raster bounds. -/
theorem C10_centroid_skips_raster_bounds :
    generate_interior_points [(0, 0), (50, 0), (50, 50), (0, 50)] (10, 10) 2 =
      [(25, 25)] ∧
    ¬(0 ≤ (25 : ℤ) ∧ (25 : ℤ) < 10 ∧ 0 ≤ (25 : ℤ) ∧ (25 : ℤ) < 10) :=
  ⟨gip_offraster_eval, by decide⟩

theorem processImage_params {Img : Type} (build : Img → Params → List Tri)
    (s : GameState Img) : (processImage build s).params = s.params := by
  unfold processImage
  split <;> rfl

/-- C8: every parameter request the program can produce outside the
documented bounds (`[10,100]` contour points, `[2,20]` interior density, via
the `+`/`-` key handlers) is clamped to the nearest bound and the rebuild
proceeds; the clamped values stay in bounds, slider drags only produce
in-bounds values, and the key handlers apply the clamped parameters to the
state (they are not rejected). -/
theorem C8_out_of_range_requests_clamped (p : Params) (hp : paramsInBounds p)
    (r : ℚ) (h0 : 0 ≤ r) (h1 : r ≤ 1) :
    increaseParams p = (clampTo 10 100 (p.1 + 5), clampTo 2 20 (p.2 + 1)) ∧
    decreaseParams p = (clampTo 10 100 (p.1 - 5), clampTo 2 20 (p.2 - 1)) ∧
    paramsInBounds (increaseParams p) ∧ paramsInBounds (decreaseParams p) ∧
    paramsInBounds (sliderContourValue r, sliderInteriorValue r) ∧
    (∀ (Img : Type) (build : Img → Params → List Tri) (s : GameState Img),
      s.params = p →
        (gameStep build .keyPlus s).params = increaseParams p ∧
        (gameStep build .keyMinus s).params = decreaseParams p) := by
  obtain ⟨ha, hb, hc, hd⟩ := hp
  refine ⟨?_, ?_, ?_, ?_, ?_, ?_⟩
  · simp only [increaseParams, clampTo, Prod.mk.injEq]
    constructor <;> omega
  · simp only [decreaseParams, clampTo, Prod.mk.injEq]
    constructor <;> omega
  · simp only [increaseParams, paramsInBounds]
    refine ⟨?_, ?_, ?_, ?_⟩ <;> omega
  · simp only [decreaseParams, paramsInBounds]
    refine ⟨?_, ?_, ?_, ?_⟩ <;> omega
  · have hq1 : (10 : ℚ) ≤ 10 + r * (100 - 10) := by nlinarith
    have hq2 : 10 + r * (100 - 10) ≤ 100 := by nlinarith
    have hq3 : (2 : ℚ) ≤ 2 + r * (20 - 2) := by nlinarith
    have hq4 : 2 + r * (20 - 2) ≤ 20 := by nlinarith
    refine ⟨?_, ?_, ?_, ?_⟩
    · unfold sliderContourValue ratTrunc
      rw [if_neg (by linarith)]
      exact Int.le_floor.mpr (by exact_mod_cast hq1)
    · unfold sliderContourValue ratTrunc
      rw [if_neg (by linarith)]
      calc ⌊10 + r * (100 - 10)⌋ ≤ ⌊(100 : ℚ)⌋ := Int.floor_le_floor hq2
        _ = 100 := by norm_num
    · unfold sliderInteriorValue ratTrunc
      rw [if_neg (by linarith)]
      exact Int.le_floor.mpr (by exact_mod_cast hq3)
    · unfold sliderInteriorValue ratTrunc
      rw [if_neg (by linarith)]
      calc ⌊2 + r * (20 - 2)⌋ ≤ ⌊(20 : ℚ)⌋ := Int.floor_le_floor hq4
        _ = 20 := by norm_num
  · intro Img build s hs
    constructor
    · show (processImage build { s with params := increaseParams s.params }).params = _
      rw [processImage_params]
      simp [hs]
    · show (processImage build { s with params := decreaseParams s.params }).params = _
      rw [processImage_params]
      simp [hs]

/-- C8 witness: at `(98, 20)` the `+` key requests `(103, 21)` and the
program clamps to `(100, 20)` and proceeds. -/
theorem C8_witness :
    paramsInBounds ((98 : ℤ), (20 : ℤ)) ∧
    increaseParams (98, 20) = (clampTo 10 100 (98 + 5), clampTo 2 20 (20 + 1)) ∧
    increaseParams (98, 20) = (100, 20) :=
  ⟨by norm_num [paramsInBounds],
   (C8_out_of_range_requests_clamped (98, 20) (by norm_num [paramsInBounds]) 0 (by norm_num)
     (by norm_num)).1,
   by decide⟩

/-- C9 (amended): when the contour's total length is zero (all vertices
coincide; at least two vertices, else the code raises `IndexError` on
`cumulative[-1]`), `place_points_on_contour` returns the first
`min(K, N)` raw vertices verbatim — exactly `K` points only when the contour
has at least `K` vertices. -/
theorem C9_zero_length_returns_first_vertices (contour : List Pt) (K : ℕ)
    (hlen : 2 ≤ contour.length)
    (hcoin : ∀ p ∈ contour, p = contour.headD (0, 0)) :
    place_points_on_contour contour K = some (contour.take K) ∧
    (contour.take K).length = min K contour.length ∧
    (K ≤ contour.length → (contour.take K).length = K) := by
  refine ⟨place_points_degenerate contour K hlen hcoin, by simp, ?_⟩
  intro h
  simp only [List.length_take]
  omega

/-- C9 witness: a three-point degenerate contour sampled with `K = 3`. -/
theorem C9_witness :
    place_points_on_contour [((7 : ℤ), (7 : ℤ)), (7, 7), (7, 7)] 3 =
      some (([((7 : ℤ), (7 : ℤ)), (7, 7), (7, 7)] : List Pt).take 3) ∧
    (([((7 : ℤ), (7 : ℤ)), (7, 7), (7, 7)] : List Pt).take 3).length =
      min 3 ([((7 : ℤ), (7 : ℤ)), (7, 7), (7, 7)] : List Pt).length ∧
    (3 ≤ ([((7 : ℤ), (7 : ℤ)), (7, 7), (7, 7)] : List Pt).length →
      (([((7 : ℤ), (7 : ℤ)), (7, 7), (7, 7)] : List Pt).take 3).length = 3) :=
  C9_zero_length_returns_first_vertices [((7 : ℤ), (7 : ℤ)), (7, 7), (7, 7)] 3
    (by simp)
    (by intro q hq; fin_cases hq <;> rfl)

/-- C9 counterexample: a two-point coincident contour with `K = 3` returns
only two points, refuting "exactly K points". -/
theorem C9_counterexample_short_contour :
    place_points_on_contour [((5 : ℤ), (5 : ℤ)), (5, 5)] 3 = some [(5, 5), (5, 5)] ∧
    ([((5 : ℤ), (5 : ℤ)), (5, 5)] : List Pt).length ≠ 3 := by
  constructor
  · have h := place_points_degenerate [((5 : ℤ), (5 : ℤ)), (5, 5)] 3 (by simp)
      (by intro q hq; fin_cases hq <;> rfl)
    simpa using h
  · decide
